import Mathlib

/-!
# Run-lifecycle backend: a shallow embedding

This file embeds the core of the `build-process-watcher` backend
(`backend/internal/auth/auth.go`, `backend/internal/storage/storage.go`,
`backend/internal/models/models.go` and the ingest HTTP handler) in Lean and
proves the testable properties of its specification against that embedding.

Modelling conventions:
* Go strings are `List Char`; Go byte slices are `List Nat` (each element a
  byte value `< 256`, tracked by explicit bounds where it matters).
* `time.Time` and `time.Duration` are `Int` nanoseconds since the Unix epoch;
  `time.Now()` becomes an explicit `now : Int` argument threaded to every
  function that reads the clock.
* Go `int`/`int64` arithmetic is modelled on unbounded `Int` (all quantities
  in scope stay far below 2^63, so no wrap-around is observable).
* `float64` values produced by `strconv.ParseFloat` are modelled as exact
  rationals (`ℚ`); every numeric literal appearing in the properties is
  exactly representable in both.
-/

/-- Go string modelled as a list of characters. -/
abbrev GoStr := List Char

/-- `strings.Split(s, sep)` for a one-character separator `sep`.
Mirrors Go: splitting the empty string yields `[""]`, a trailing separator
yields a trailing empty field. -/
def goSplit (sep : Char) : List Char → List (List Char)
  | [] => [[]]
  | c :: rest =>
    if c = sep then [] :: goSplit sep rest
    else
      match goSplit sep rest with
      | [] => [[c]]
      | g :: gs => (c :: g) :: gs

/-- The white-space predicate of `strings.TrimSpace`, restricted to the ASCII
space characters that can occur in the wire format. -/
def isGoSpace (c : Char) : Bool :=
  c = ' ' || c = '\t' || c = '\n' || c = '\r' || c = Char.ofNat 11 || c = Char.ofNat 12

/-- `strings.TrimSpace`: drop white space from both ends. -/
def trimSpace (s : List Char) : List Char :=
  ((s.dropWhile isGoSpace).reverse.dropWhile isGoSpace).reverse

/-- `strings.TrimSuffix(s, suf)`: remove `suf` once if `s` ends with it. -/
def trimSuffix (s suf : List Char) : List Char :=
  if suf.isSuffixOf s then s.take (s.length - suf.length) else s

/-- All characters are ASCII decimal digits. -/
def allDigits (s : List Char) : Bool :=
  s.all fun c => decide ('0' ≤ c) && decide (c ≤ '9')

/-- Numeric value of a digit string (most significant digit first). -/
def digitsVal (s : List Char) : Nat :=
  s.foldl (fun acc c => acc * 10 + (c.toNat - 48)) 0

/-- `strconv.Atoi`: an optional sign followed by at least one digit.
Returns `none` exactly when Go returns a non-nil error. -/
def atoi (s : List Char) : Option Int :=
  match s with
  | [] => none
  | '+' :: rest =>
    if allDigits rest && !rest.isEmpty then some (digitsVal rest) else none
  | '-' :: rest =>
    if allDigits rest && !rest.isEmpty then some (-(digitsVal rest : Int)) else none
  | _ => if allDigits s then some (digitsVal s) else none

/-- Magnitude part of `strconv.ParseFloat` on plain decimal notation:
`digits`, `digits.digits`, `digits.` or `.digits` (at least one digit). -/
def parseFloatMag (s : List Char) : Option ℚ :=
  let ip := s.takeWhile fun c => c ≠ '.'
  match s.drop ip.length with
  | [] => if allDigits ip && !ip.isEmpty then some (digitsVal ip) else none
  | '.' :: fp =>
    if allDigits ip && allDigits fp && (!ip.isEmpty || !fp.isEmpty) then
      some ((digitsVal ip : ℚ) + (digitsVal fp : ℚ) / (10 : ℚ) ^ fp.length)
    else none
  | _ => none

/-- `strconv.ParseFloat(s, 64)` on the decimal forms the wire format uses
(optional sign, digits, optional fraction; exponents, hex floats and
inf/nan spellings do not occur in this system's data).  The value is kept
as an exact rational. -/
def parseFloat (s : List Char) : Option ℚ :=
  match s with
  | '+' :: rest => parseFloatMag rest
  | '-' :: rest => (parseFloatMag rest).map Neg.neg
  | _ => parseFloatMag s

/-- Go's `int(f)` conversion from `float64`: truncation toward zero. -/
def goInt (q : ℚ) : Int :=
  Int.tdiv q.num (q.den : Int)

/-- `storage.ToMillis`: `t.UnixNano() / int64(time.Millisecond)`;
Go's `/` on `int64` truncates toward zero, as does `Int.tdiv`. -/
def toMillis (t : Int) : Int :=
  Int.tdiv t 1000000

/-- `models.Sample`.  The field set is the union of the two revisions present
in the tree: `models.go` declares `RunID` (and no `GCTime`), while
`storage.ParseData` writes a `GCTime` field; both are carried here. -/
structure Sample where
  timestamp : Int
  elapsedTime : Int
  pid : GoStr
  name : GoStr
  heapUsed : Int
  heapCap : Int
  rss : Int
  gcTime : Int
  runID : GoStr
deriving DecidableEq, Repr

/-- One iteration of the loop body of `storage.ParseData`: parse a single
line, `none` meaning the line is skipped (`continue` in the source). -/
def parseLine (startTime : Int) (rawLine : List Char) : Option Sample :=
  let line := trimSpace rawLine
  if line.isEmpty then none
  else
    let parts0 := goSplit '|' line
    if parts0.length ≠ 6 ∧ parts0.length ≠ 7 then none
    else
      let parts := parts0.map trimSpace
      let timeParts := goSplit ':' (parts.getD 0 [])
      if timeParts.length ≠ 3 then none
      else
        match atoi (timeParts.getD 0 []), atoi (timeParts.getD 1 []), atoi (timeParts.getD 2 []) with
        | some hours, some minutes, some seconds =>
          let elapsedTime := hours * 3600 + minutes * 60 + seconds
          match parseFloat (trimSuffix (trimSuffix (parts.getD 3 []) ['M','B']) ['M','B']),
                parseFloat (trimSuffix (trimSuffix (parts.getD 4 []) ['M','B']) ['M','B']),
                parseFloat (trimSuffix (trimSuffix (parts.getD 5 []) ['M','B']) ['M','B']) with
          | some heapUsedFloat, some heapCapFloat, some rssFloat =>
            let gcTime : Int :=
              if parts.length = 7 then
                let gcTimeStr := trimSuffix (trimSuffix (parts.getD 6 []) ['m','s']) ['m','s']
                if gcTimeStr ≠ ['N','/','A'] ∧ gcTimeStr ≠ [] then
                  match parseFloat gcTimeStr with
                  | some gcTimeFloat => goInt gcTimeFloat
                  | none => 0
                else 0
              else 0
            let timestamp := startTime + elapsedTime * 1000000000
            some
              { timestamp := toMillis timestamp
                elapsedTime := elapsedTime
                pid := parts.getD 1 []
                name := parts.getD 2 []
                heapUsed := goInt heapUsedFloat
                heapCap := goInt heapCapFloat
                rss := goInt rssFloat
                gcTime := gcTime
                runID := [] }
          | _, _, _ => none
        | _, _, _ => none

/-- The error cases of the storage layer that are decided by the data itself
(I/O failures of the document store are environment faults outside this
model). -/
inductive StorageErr where
  | notFound
deriving DecidableEq, Repr

/-- `storage.ParseData` body: split the trimmed payload into lines and keep
every line the loop turns into a sample. -/
def parseData (data : List Char) (startTime : Int) : List Sample :=
  (goSplit '\n' (trimSpace data)).filterMap (parseLine startTime)

/-- `storage.ParseData` with its Go signature `([]Sample, error)`: no code
path of the source returns a non-nil error. -/
def ParseData (data : List Char) (startTime : Int) : Except StorageErr (List Sample) :=
  Except.ok (parseData data startTime)

/-! ## SHA-256 and HMAC (`crypto/sha256`, `crypto/hmac`)

A byte-level model of the primitives `auth.go` takes from the Go standard
library.  Words are `Nat` reduced mod `2 ^ 32` at every step. -/

/-- Rotate a 32-bit word right by `k` bits (for `x < 2 ^ 32`). -/
def rotr (k x : Nat) : Nat :=
  x / 2 ^ k + x % 2 ^ k * 2 ^ (32 - k)

/-- SHA-256 `Ch(x,y,z) = (x ∧ y) ⊕ (¬x ∧ z)` on 32-bit words. -/
def shaCh (x y z : Nat) : Nat :=
  Nat.xor (Nat.land x y) (Nat.land (Nat.xor x 4294967295) z)

/-- SHA-256 `Maj(x,y,z) = (x ∧ y) ⊕ (x ∧ z) ⊕ (y ∧ z)`. -/
def shaMaj (x y z : Nat) : Nat :=
  Nat.xor (Nat.xor (Nat.land x y) (Nat.land x z)) (Nat.land y z)

/-- SHA-256 `Σ₀`. -/
def bigSigma0 (x : Nat) : Nat :=
  Nat.xor (Nat.xor (rotr 2 x) (rotr 13 x)) (rotr 22 x)

/-- SHA-256 `Σ₁`. -/
def bigSigma1 (x : Nat) : Nat :=
  Nat.xor (Nat.xor (rotr 6 x) (rotr 11 x)) (rotr 25 x)

/-- SHA-256 `σ₀`. -/
def smallSigma0 (x : Nat) : Nat :=
  Nat.xor (Nat.xor (rotr 7 x) (rotr 18 x)) (x / 2 ^ 3)

/-- SHA-256 `σ₁`. -/
def smallSigma1 (x : Nat) : Nat :=
  Nat.xor (Nat.xor (rotr 17 x) (rotr 19 x)) (x / 2 ^ 10)

/-- The 64 SHA-256 round constants. -/
def shaK : List Nat :=
  [1116352408, 1899447441, 3049323471, 3921009573, 961987163,
   1508970993, 2453635748, 2870763221, 3624381080, 310598401,
   607225278, 1426881987, 1925078388, 2162078206, 2614888103,
   3248222580, 3835390401, 4022224774, 264347078, 604807628,
   770255983, 1249150122, 1555081692, 1996064986, 2554220882,
   2821834349, 2952996808, 3210313671, 3336571891, 3584528711,
   113926993, 338241895, 666307205, 773529912, 1294757372,
   1396182291, 1695183700, 1986661051, 2177026350, 2456956037,
   2730485921, 2820302411, 3259730800, 3345764771, 3516065817,
   3600352804, 4094571909, 275423344, 430227734, 506948616,
   659060556, 883997877, 958139571, 1322822218, 1537002063,
   1747873779, 1955562222, 2024104815, 2227730452, 2361852424,
   2428436474, 2756734187, 3204031479, 3329325298]

/-- The SHA-256 initial hash value. -/
def shaH0 : List Nat :=
  [1779033703, 3144134277, 1013904242, 2773480762,
   1359893119, 2600822924, 528734635, 1541459225]

/-- Append the next word of the SHA-256 message schedule. -/
def scheduleStep (ws : List Nat) : List Nat :=
  ws ++ [(smallSigma1 (ws.getD (ws.length - 2) 0) + ws.getD (ws.length - 7) 0 +
          smallSigma0 (ws.getD (ws.length - 15) 0) + ws.getD (ws.length - 16) 0) % 2 ^ 32]

/-- Extend a 16-word block to the full 64-word message schedule. -/
def schedule (block : List Nat) : List Nat :=
  (List.range 48).foldl (fun ws _ => scheduleStep ws) block

/-- One round of the SHA-256 compression function on the state
`[a,b,c,d,e,f,g,h]`. -/
def roundStep (w k : Nat) (s : List Nat) : List Nat :=
  let a := s.getD 0 0
  let b := s.getD 1 0
  let c := s.getD 2 0
  let d := s.getD 3 0
  let e := s.getD 4 0
  let f := s.getD 5 0
  let g := s.getD 6 0
  let h := s.getD 7 0
  let t1 := (h + bigSigma1 e + shaCh e f g + k + w) % 2 ^ 32
  let t2 := (bigSigma0 a + shaMaj a b c) % 2 ^ 32
  [(t1 + t2) % 2 ^ 32, a, b, c, (d + t1) % 2 ^ 32, e, f, g]

/-- SHA-256 compression of one 16-word block into the chaining value. -/
def compress (h : List Nat) (block : List Nat) : List Nat :=
  let ws := schedule block
  let s := (List.range 64).foldl (fun s t => roundStep (ws.getD t 0) (shaK.getD t 0) s) h
  List.zipWith (fun x y => (x + y) % 2 ^ 32) h s

/-- Big-endian 32-bit words from a byte list whose length is a multiple
of 4. -/
def bytesToWords : List Nat → List Nat
  | a :: b :: c :: d :: rest => (a * 16777216 + b * 65536 + c * 256 + d) :: bytesToWords rest
  | _ => []

/-- The 8-byte big-endian bit-length trailer of SHA-256 padding. -/
def lenBytes8 (n : Nat) : List Nat :=
  [n / 2 ^ 56 % 256, n / 2 ^ 48 % 256, n / 2 ^ 40 % 256, n / 2 ^ 32 % 256,
   n / 2 ^ 24 % 256, n / 2 ^ 16 % 256, n / 2 ^ 8 % 256, n % 256]

/-- SHA-256 message padding: `0x80`, zeros to 56 mod 64, then the bit length. -/
def padMsg (msg : List Nat) : List Nat :=
  msg ++ [128] ++ List.replicate ((119 - msg.length % 64) % 64) 0 ++ lenBytes8 (8 * msg.length)

/-- Cut a word list into 16-word blocks. -/
def toBlocks (ws : List Nat) : List (List Nat) :=
  if h : ws = [] then [] else ws.take 16 :: toBlocks (ws.drop 16)
termination_by ws.length
decreasing_by
  simp only [List.length_drop]
  exact Nat.sub_lt (List.length_pos.mpr h) (by omega)

/-- Serialize 32-bit words back to big-endian bytes. -/
def wordsToBytes (ws : List Nat) : List Nat :=
  (ws.map fun w => [w / 2 ^ 24 % 256, w / 2 ^ 16 % 256, w / 2 ^ 8 % 256, w % 256]).flatten

/-- SHA-256 of a byte list. -/
def sha256 (msg : List Nat) : List Nat :=
  wordsToBytes ((toBlocks (bytesToWords (padMsg msg))).foldl compress shaH0)

/-- `hmac.New(sha256.New, key)` followed by `Write(msg)`/`Sum(nil)`:
HMAC-SHA-256 with block size 64. -/
def hmacSha256 (key msg : List Nat) : List Nat :=
  let k1 := if key.length > 64 then sha256 key else key
  let k0 := k1 ++ List.replicate (64 - k1.length) 0
  sha256 ((k0.map fun b => Nat.xor b 92) ++ sha256 ((k0.map fun b => Nat.xor b 54) ++ msg))

/-! ## base64url and hex (`encoding/base64` URLEncoding, `encoding/hex`) -/

/-- The `base64.URLEncoding` alphabet. -/
def b64Alphabet : List Char :=
  (("ABCDEFGHIJKLMNOPQRSTUVWXYZabcdefghijklmnopqrstuvwxyz0123456789-_").data)

/-- Character for a six-bit group. -/
def b64Char (n : Nat) : Char :=
  b64Alphabet.getD n 'A'

/-- Six-bit value of an alphabet character, `none` outside the alphabet. -/
def b64CharIdx (c : Char) : Option Nat :=
  List.findIdx? (fun a => a = c) b64Alphabet

/-- `base64.URLEncoding.EncodeToString`: three bytes to four characters,
with `=` padding on the final partial group. -/
def b64Encode : List Nat → List Char
  | [] => []
  | [a] => [b64Char (a / 4), b64Char (a % 4 * 16), '=', '=']
  | [a, b] => [b64Char (a / 4), b64Char (a % 4 * 16 + b / 16), b64Char (b % 16 * 4), '=']
  | a :: b :: c :: rest =>
    b64Char (a / 4) :: b64Char (a % 4 * 16 + b / 16) :: b64Char (b % 16 * 4 + c / 64) ::
      b64Char (c % 64) :: b64Encode rest

/-- `base64.URLEncoding.DecodeString`: four characters to three bytes, the
final group possibly padded; `none` on any input Go rejects (wrong length,
character outside the alphabet, padding before the end). -/
def b64Decode : List Char → Option (List Nat)
  | [] => some []
  | c1 :: c2 :: c3 :: c4 :: rest =>
    (match b64CharIdx c1, b64CharIdx c2 with
     | some n1, some n2 =>
       if c3 = '=' then
         if c4 = '=' ∧ rest = [] then some [n1 * 4 + n2 / 16] else none
       else
         match b64CharIdx c3 with
         | some n3 =>
           if c4 = '=' then
             if rest = [] then some [n1 * 4 + n2 / 16, n2 % 16 * 16 + n3 / 4] else none
           else
             match b64CharIdx c4, b64Decode rest with
             | some n4, some ds =>
               some ((n1 * 4 + n2 / 16) :: (n2 % 16 * 16 + n3 / 4) :: (n3 % 4 * 64 + n4) :: ds)
             | _, _ => none
         | none => none
     | _, _ => none)
  | _ => none

/-- Lower-case hex digit characters. -/
def hexDigitChars : List Char :=
  (("0123456789abcdef").data)

/-- Character for a four-bit group (`hex.EncodeToString` emits lower case). -/
def hexChar (n : Nat) : Char :=
  hexDigitChars.getD n '0'

/-- Four-bit value of a hex character; Go's decoder accepts both cases. -/
def hexCharIdx (c : Char) : Option Nat :=
  if '0' ≤ c ∧ c ≤ '9' then some (c.toNat - 48)
  else if 'a' ≤ c ∧ c ≤ 'f' then some (c.toNat - 87)
  else if 'A' ≤ c ∧ c ≤ 'F' then some (c.toNat - 55)
  else none

/-- `hex.EncodeToString`. -/
def hexEncode : List Nat → List Char
  | [] => []
  | b :: rest => hexChar (b / 16) :: hexChar (b % 16) :: hexEncode rest

/-- `hex.DecodeString`: `none` on odd length or a non-hex character. -/
def hexDecode : List Char → Option (List Nat)
  | [] => some []
  | c1 :: c2 :: rest =>
    (match hexCharIdx c1, hexCharIdx c2, hexDecode rest with
     | some n1, some n2, some ds => some ((n1 * 16 + n2) :: ds)
     | _, _, _ => none)
  | _ => none

/-! ## Token payload serialization (`encoding/json` for `models.TokenData`)

`json.Marshal` on `TokenData` is modelled as an injective byte serialization
with a partial inverse: the JSON surface syntax is abstracted away, keeping
exactly the properties `auth.go` relies on — marshalling is total, and
unmarshalling inverts it and rejects byte strings that encode no token. -/

/-- `models.TokenData`: the payload signed into a token. -/
structure TokenData where
  runID : GoStr
  expiresAt : Int
  createdAt : Int
deriving DecidableEq, Repr

/-- Little-endian base-128 digits of a natural number. -/
def natDigits128 (n : Nat) : List Nat :=
  if h : n = 0 then [] else n % 128 :: natDigits128 (n / 128)
decreasing_by
  exact Nat.div_lt_self (Nat.pos_of_ne_zero h) (by omega)

/-- Self-delimiting encoding of a natural number: base-128 digits closed by
the terminator byte 255. -/
def encNat (n : Nat) : List Nat :=
  natDigits128 n ++ [255]

/-- Inverse of `encNat`, returning the value and the unread remainder. -/
def decNat : List Nat → Option (Nat × List Nat)
  | [] => none
  | b :: rest =>
    if b = 255 then some (0, rest)
    else if b < 128 then
      match decNat rest with
      | some (v, r) => some (b + 128 * v, r)
      | none => none
    else none

/-- Sign-and-magnitude encoding of an integer. -/
def encInt (i : Int) : List Nat :=
  (if i < 0 then 1 else 0) :: encNat i.natAbs

/-- Inverse of `encInt`. -/
def decInt : List Nat → Option (Int × List Nat)
  | [] => none
  | s :: rest =>
    match decNat rest with
    | some (v, r) =>
      if s = 1 then some (-(v : Int), r) else if s = 0 then some ((v : Int), r) else none
    | none => none

/-- A character as three bytes (its code point in base 256, big-endian). -/
def encChar (c : Char) : List Nat :=
  [c.toNat / 65536, c.toNat / 256 % 256, c.toNat % 256]

/-- A string as its length followed by three bytes per character. -/
def encStrBytes (s : GoStr) : List Nat :=
  encNat s.length ++ (s.map encChar).flatten

/-- Read `n` three-byte character blocks. -/
def decChars : Nat → List Nat → Option (GoStr × List Nat)
  | 0, bs => some ([], bs)
  | n + 1, b1 :: b2 :: b3 :: tail =>
    (match decChars n tail with
     | some (cs, r) => some (Char.ofNat (b1 * 65536 + b2 * 256 + b3) :: cs, r)
     | none => none)
  | _ + 1, _ => none

/-- Inverse of `encStrBytes`. -/
def decStr (bs : List Nat) : Option (GoStr × List Nat) :=
  match decNat bs with
  | some (n, rest) => decChars n rest
  | none => none

/-- `json.Marshal` of a `TokenData` value. -/
def jsonMarshal (td : TokenData) : List Nat :=
  encStrBytes td.runID ++ encInt td.expiresAt ++ encInt td.createdAt

/-- `json.Unmarshal` of a byte string into `TokenData`; `none` when the bytes
are not a serialized token payload. -/
def jsonUnmarshal (bs : List Nat) : Option TokenData :=
  match decStr bs with
  | some (r, rest1) =>
    match decInt rest1 with
    | some (e, rest2) =>
      match decInt rest2 with
      | some (c, rest3) => if rest3 = [] then some ⟨r, e, c⟩ else none
      | none => none
    | none => none
  | none => none

/-! ## TokenService (`auth.go`) -/

/-- The distinguishable rejection reasons of `auth.ValidateToken`, one per
`return false, fmt.Errorf(...)` site. -/
inductive TokenErr where
  | invalidFormat
  | decodePayload
  | decodeSignature
  | invalidSignature
  | unmarshalData
  | expired
  | runIdMismatch
deriving DecidableEq, Repr

/-- `auth.GenerateToken`: sign `{runID, expiresAt = now + 2h, createdAt = now}`
with HMAC-SHA-256 under `key` (the process-wide `secretKey`) and return
`base64(payload) ++ "." ++ hex(mac)` with the expiry instant.  The Go error
result is omitted: `json.Marshal` cannot fail on `TokenData`. -/
def GenerateToken (key : List Nat) (runID : GoStr) (now : Int) : GoStr × Int :=
  let expiresAt := now + 7200000000000
  let payload := jsonMarshal ⟨runID, expiresAt, now⟩
  let signature := hmacSha256 key payload
  (b64Encode payload ++ '.' :: hexEncode signature, expiresAt)

/-- `auth.ValidateToken`: split on `.`, decode both halves, recompute and
compare the MAC, unmarshal, check expiry (`time.Now().After`), check the run
id.  `Except.error` sites correspond one-to-one to the source's error
returns; the only success value is `true`. -/
def ValidateToken (key : List Nat) (token : GoStr) (runID : GoStr) (now : Int) :
    Except TokenErr Bool :=
  match goSplit '.' token with
  | [payloadEncoded, signatureHex] =>
    (match b64Decode payloadEncoded with
     | none => Except.error TokenErr.decodePayload
     | some payload =>
       match hexDecode signatureHex with
       | none => Except.error TokenErr.decodeSignature
       | some signature =>
         if signature = hmacSha256 key payload then
           match jsonUnmarshal payload with
           | none => Except.error TokenErr.unmarshalData
           | some tokenData =>
             if now > tokenData.expiresAt then Except.error TokenErr.expired
             else if tokenData.runID ≠ runID then Except.error TokenErr.runIdMismatch
             else Except.ok true
         else Except.error TokenErr.invalidSignature)
  | _ => Except.error TokenErr.invalidFormat

/-! ## RunStore (`storage.go`)

The Firestore collection `runs` is an association list from document id to
`RunDoc`; `doc.Set` replaces the entry (creating it if absent).  I/O failures
of the store are environment faults and have no representation here. -/

/-- `models.RunDoc`.  `time.Time` fields are epoch nanoseconds, the zero
`time.Time` is 0. -/
structure RunDoc where
  id : GoStr
  runID : GoStr
  startTime : Int
  endTime : Int
  createdAt : Int
  updatedAt : Int
  updatedAtTimestamp : Int
  samples : List Sample
  finished : Bool
  finishedAt : Int
deriving DecidableEq, Repr

/-- The zero `RunDoc` (Go's zero value before fields are assigned). -/
def RunDoc.zero : RunDoc :=
  { id := [], runID := [], startTime := 0, endTime := 0, createdAt := 0, updatedAt := 0,
    updatedAtTimestamp := 0, samples := [], finished := false, finishedAt := 0 }

/-- The `runs` collection. -/
abbrev Store := List (GoStr × RunDoc)

/-- Fetch a document snapshot by id. -/
def lookupRun (st : Store) (k : GoStr) : Option RunDoc :=
  match st with
  | [] => none
  | (k2, d) :: rest => if k2 = k then some d else lookupRun rest k

/-- `doc.Set`: overwrite the document, creating it if absent. -/
def setRun (st : Store) (k : GoStr) (d : RunDoc) : Store :=
  match st with
  | [] => [(k, d)]
  | (k2, d2) :: rest => if k2 = k then (k, d) :: rest else (k2, d2) :: setRun rest k d

/-- `storage.Client.GetRun`: both the missing-document error of `Get` and the
`!snapshot.Exists()` branch collapse to `notFound`. -/
def GetRun (st : Store) (runID : GoStr) : Except StorageErr RunDoc :=
  match lookupRun st runID with
  | some d => Except.ok d
  | none => Except.error StorageErr.notFound

/-- `storage.Client.StoreSamples`: read the document (or synthesize a fresh
one with `StartTime = CreatedAt = now`), append the samples, refresh
`UpdatedAt` and its millis duplicate, write back. -/
def StoreSamples (st : Store) (runID : GoStr) (samples : List Sample) (now : Int) : Store :=
  let runDoc :=
    match lookupRun st runID with
    | some d => d
    | none => { RunDoc.zero with id := runID, runID := runID, startTime := now, createdAt := now }
  let runDoc :=
    { runDoc with
        samples := runDoc.samples ++ samples
        updatedAt := now
        updatedAtTimestamp := toMillis now }
  setRun st runID runDoc

/-- `storage.Client.MarkRunAsFinished`: error when the run does not exist;
return with no write when it is already finished; otherwise flip `finished`,
stamp `finishedAt` and refresh `updatedAt` and its millis duplicate. -/
def MarkRunAsFinished (st : Store) (runID : GoStr) (now : Int) : Except StorageErr Store :=
  match lookupRun st runID with
  | none => Except.error StorageErr.notFound
  | some runDoc =>
    if runDoc.finished then Except.ok st
    else
      Except.ok (setRun st runID
        { runDoc with
            finished := true
            finishedAt := now
            updatedAt := now
            updatedAtTimestamp := toMillis now })

/-- `storage.Client.FindStaleRuns`: scan every document, skip the finished
ones, return the ids of those with `time.Since(UpdatedAt) > timeout`. -/
def FindStaleRuns (st : Store) (timeout : Int) (now : Int) : List GoStr :=
  (st.filter fun kd => !kd.2.finished && decide (now - kd.2.updatedAt > timeout)).map
    fun kd => kd.1

/-! ## Ingest handler (`handlers.Ingest`)

The handler is a function from the request, the clock and the store to an
HTTP status, the resulting store and the trace of storage operations it
performed.  The request body is `none` when the JSON decoder fails.  The
`ProcessInfo` branch is absent: `models.IngestRequest` carries only
`run_id` and `data`. -/

/-- `models.IngestRequest`. -/
structure IngestRequest where
  runID : GoStr
  data : GoStr
deriving DecidableEq, Repr

/-- HTTP methods distinguished by the handler. -/
inductive Method where
  | options
  | post
  | get
deriving DecidableEq, Repr

/-- An inbound `/ingest` request: method, the `Authorization` header value
(`Header.Get` yields the empty string when the header is missing), and the
decoded body. -/
structure IngestHttpReq where
  method : Method
  authHeader : GoStr
  body : Option IngestRequest
deriving DecidableEq, Repr

/-- Storage operations observable from the handler, in order. -/
inductive StorageOp where
  | opGetRun (id : GoStr)
  | opStoreSamples (id : GoStr) (count : Nat)
deriving DecidableEq, Repr

/-- The `"Bearer"` scheme word. -/
def bearerWord : GoStr :=
  ['B','e','a','r','e','r']

/-- `handlers.Ingest`: CORS preflight, method check, body decoding, bearer
token validation against the body's run id, required-field check, start-time
lookup, parse, store. -/
def Ingest (key : List Nat) (r : IngestHttpReq) (now : Int) (st : Store) :
    Nat × Store × List StorageOp :=
  if r.method = Method.options then (200, st, [])
  else if r.method ≠ Method.post then (405, st, [])
  else
    match r.body with
    | none => (400, st, [])
    | some req =>
      if r.authHeader = [] then (401, st, [])
      else
        let tokenParts := goSplit ' ' r.authHeader
        if tokenParts.length ≠ 2 ∨ tokenParts.getD 0 [] ≠ bearerWord then (401, st, [])
        else
          match ValidateToken key (tokenParts.getD 1 []) req.runID now with
          | Except.error _ => (401, st, [])
          | Except.ok valid =>
            if !valid then (401, st, [])
            else if req.runID = [] ∨ req.data = [] then (400, st, [])
            else
              let startTime :=
                match GetRun st req.runID with
                | Except.ok runDoc => runDoc.startTime
                | Except.error StorageErr.notFound => now
              match ParseData req.data startTime with
              | Except.error _ => (400, st, [StorageOp.opGetRun req.runID])
              | Except.ok samples =>
                (200, StoreSamples st req.runID samples now,
                 [StorageOp.opGetRun req.runID, StorageOp.opStoreSamples req.runID samples.length])

/-! ## Specification-side predicates for token rejection

These four definitions transcribe the specification's wording for when
`ValidateToken` must reject ("malformed structure, signature mismatch,
payload expired, or run-id mismatch"), to be compared against the
source-shaped `ValidateToken` above. -/

/-- Spec wording: the token is not exactly two `.`-separated halves that
decode (through base64 and, for the payload, on into token data). -/
def structurallyMalformed (token : GoStr) : Bool :=
  match goSplit '.' token with
  | [p, s] =>
    (b64Decode p).isNone || (hexDecode s).isNone || ((b64Decode p).bind jsonUnmarshal).isNone
  | _ => true

/-- Spec wording: the MAC recomputed over the decoded payload differs from
the attached signature. -/
def macDiffers (key : List Nat) (token : GoStr) : Bool :=
  match goSplit '.' token with
  | [p, s] =>
    (match b64Decode p, hexDecode s with
     | some payload, some signature => decide (signature ≠ hmacSha256 key payload)
     | _, _ => false)
  | _ => false

/-- The token data embedded in the payload half, when it decodes. -/
def tokenDataOf (token : GoStr) : Option TokenData :=
  match goSplit '.' token with
  | [p, _] => (b64Decode p).bind jsonUnmarshal
  | _ => none

/-- Spec wording: the payload's embedded `expires_at` is in the past. -/
def payloadExpired (token : GoStr) (now : Int) : Bool :=
  match tokenDataOf token with
  | some td => decide (now > td.expiresAt)
  | none => false

/-- Spec wording: the payload's run id differs from the argument. -/
def runIdDiffers (token : GoStr) (runID : GoStr) : Bool :=
  match tokenDataOf token with
  | some td => decide (td.runID ≠ runID)
  | none => false

/-- The specification's complete rejection condition for `ValidateToken`. -/
def specRejects (key : List Nat) (token : GoStr) (runID : GoStr) (now : Int) : Bool :=
  structurallyMalformed token || macDiffers key token || payloadExpired token now ||
    runIdDiffers token runID

/-! ## Helper lemmas -/

theorem goSplit_of_not_mem (sep : Char) (ys : List Char) (hy : sep ∉ ys) :
    goSplit sep ys = [ys] := by
  induction ys with
  | nil => rfl
  | cons c rest ih =>
    have hc : c ≠ sep := fun h => hy (h ▸ List.mem_cons_self c rest)
    have hrest : sep ∉ rest := fun h => hy (List.mem_cons_of_mem c h)
    simp [goSplit, hc, ih hrest]

theorem goSplit_append_sep (sep : Char) (xs ys : List Char) (hx : sep ∉ xs) (hy : sep ∉ ys) :
    goSplit sep (xs ++ sep :: ys) = [xs, ys] := by
  induction xs with
  | nil => simp [goSplit, goSplit_of_not_mem sep ys hy]
  | cons c rest ih =>
    have hc : c ≠ sep := fun h => hx (h ▸ List.mem_cons_self c rest)
    have hrest : sep ∉ rest := fun h => hx (List.mem_cons_of_mem c h)
    simp [goSplit, hc, ih hrest]

theorem lookupRun_setRun_self (st : Store) (k : GoStr) (d : RunDoc) :
    lookupRun (setRun st k d) k = some d := by
  induction st with
  | nil => simp [setRun, lookupRun]
  | cons kd rest ih =>
    by_cases h : kd.1 = k
    · simp [setRun, lookupRun, h]
    · simp [setRun, lookupRun, h, ih]

theorem b64CharIdx_b64Char : ∀ n < 64, b64CharIdx (b64Char n) = some n := by decide

theorem b64Char_ne_pad : ∀ n < 64, b64Char n ≠ '=' := by decide

theorem b64Char_ne_dot : ∀ n < 64, b64Char n ≠ '.' := by decide

theorem b64Char_ne_space : ∀ n < 64, b64Char n ≠ ' ' := by decide

theorem b64Decode_b64Encode (p : List Nat) (h : ∀ x ∈ p, x < 256) :
    b64Decode (b64Encode p) = some p := by
  induction p using b64Encode.induct with
  | case1 => rfl
  | case2 a =>
    have ha : a < 256 := h a (by simp)
    have h1 : a / 4 < 64 := by omega
    have h2 : a % 4 * 16 < 64 := by omega
    simp [b64Encode, b64Decode, b64CharIdx_b64Char _ h1, b64CharIdx_b64Char _ h2]
    omega
  | case3 a b =>
    have ha : a < 256 := h a (by simp)
    have hb : b < 256 := h b (by simp)
    have h1 : a / 4 < 64 := by omega
    have h2 : a % 4 * 16 + b / 16 < 64 := by omega
    have h3 : b % 16 * 4 < 64 := by omega
    simp [b64Encode, b64Decode, b64CharIdx_b64Char _ h1, b64CharIdx_b64Char _ h2,
      b64CharIdx_b64Char _ h3, b64Char_ne_pad _ h3]
    omega
  | case4 a b c rest ih =>
    have ha : a < 256 := h a (by simp)
    have hb : b < 256 := h b (by simp)
    have hc : c < 256 := h c (by simp)
    have h1 : a / 4 < 64 := by omega
    have h2 : a % 4 * 16 + b / 16 < 64 := by omega
    have h3 : b % 16 * 4 + c / 64 < 64 := by omega
    have h4 : c % 64 < 64 := by omega
    have ihr := ih fun x hx => h x (by simp [hx])
    simp [b64Encode, b64Decode, b64CharIdx_b64Char _ h1, b64CharIdx_b64Char _ h2,
      b64CharIdx_b64Char _ h3, b64CharIdx_b64Char _ h4, b64Char_ne_pad _ h3,
      b64Char_ne_pad _ h4, ihr]
    refine ⟨by omega, by omega, by omega⟩

theorem mem_b64Encode (p : List Nat) (h : ∀ x ∈ p, x < 256) :
    ∀ ch ∈ b64Encode p, ch = '=' ∨ ∃ n, n < 64 ∧ ch = b64Char n := by
  induction p using b64Encode.induct with
  | case1 => simp [b64Encode]
  | case2 a =>
    have ha : a < 256 := h a (by simp)
    intro ch hch
    simp only [b64Encode, List.mem_cons, List.not_mem_nil, or_false] at hch
    rcases hch with rfl | rfl | rfl | rfl
    · exact Or.inr ⟨a / 4, by omega, rfl⟩
    · exact Or.inr ⟨a % 4 * 16, by omega, rfl⟩
    · exact Or.inl rfl
    · exact Or.inl rfl
  | case3 a b =>
    have ha : a < 256 := h a (by simp)
    have hb : b < 256 := h b (by simp)
    intro ch hch
    simp only [b64Encode, List.mem_cons, List.not_mem_nil, or_false] at hch
    rcases hch with rfl | rfl | rfl | rfl
    · exact Or.inr ⟨a / 4, by omega, rfl⟩
    · exact Or.inr ⟨a % 4 * 16 + b / 16, by omega, rfl⟩
    · exact Or.inr ⟨b % 16 * 4, by omega, rfl⟩
    · exact Or.inl rfl
  | case4 a b c rest ih =>
    have ha : a < 256 := h a (by simp)
    have hb : b < 256 := h b (by simp)
    have hc : c < 256 := h c (by simp)
    have ihr := ih fun x hx => h x (by simp [hx])
    intro ch hch
    simp only [b64Encode, List.mem_cons] at hch
    rcases hch with rfl | rfl | rfl | rfl | hmem
    · exact Or.inr ⟨a / 4, by omega, rfl⟩
    · exact Or.inr ⟨a % 4 * 16 + b / 16, by omega, rfl⟩
    · exact Or.inr ⟨b % 16 * 4 + c / 64, by omega, rfl⟩
    · exact Or.inr ⟨c % 64, by omega, rfl⟩
    · exact ihr ch hmem

theorem dot_notin_b64Encode (p : List Nat) (h : ∀ x ∈ p, x < 256) :
    '.' ∉ b64Encode p := by
  intro hmem
  rcases mem_b64Encode p h '.' hmem with h1 | ⟨n, hn, h2⟩
  · exact absurd h1 (by decide)
  · exact b64Char_ne_dot n hn h2.symm

theorem space_notin_b64Encode (p : List Nat) (h : ∀ x ∈ p, x < 256) :
    ' ' ∉ b64Encode p := by
  intro hmem
  rcases mem_b64Encode p h ' ' hmem with h1 | ⟨n, hn, h2⟩
  · exact absurd h1 (by decide)
  · exact b64Char_ne_space n hn h2.symm

theorem hexCharIdx_hexChar : ∀ n < 16, hexCharIdx (hexChar n) = some n := by decide

theorem hexDecode_hexEncode (s : List Nat) (h : ∀ x ∈ s, x < 256) :
    hexDecode (hexEncode s) = some s := by
  induction s with
  | nil => rfl
  | cons b rest ih =>
    have hb : b < 256 := h b (by simp)
    have h1 : b / 16 < 16 := by omega
    have h2 : b % 16 < 16 := by omega
    have ihr := ih fun x hx => h x (by simp [hx])
    simp [hexEncode, hexDecode, hexCharIdx_hexChar _ h1, hexCharIdx_hexChar _ h2, ihr]
    omega

theorem mem_hexEncode (s : List Nat) (h : ∀ x ∈ s, x < 256) :
    ∀ ch ∈ hexEncode s, ∃ n, n < 16 ∧ ch = hexChar n := by
  induction s with
  | nil => simp [hexEncode]
  | cons b rest ih =>
    have hb : b < 256 := h b (by simp)
    have ihr := ih fun x hx => h x (by simp [hx])
    intro ch hch
    simp only [hexEncode, List.mem_cons] at hch
    rcases hch with rfl | rfl | hmem
    · exact ⟨b / 16, by omega, rfl⟩
    · exact ⟨b % 16, by omega, rfl⟩
    · exact ihr ch hmem

theorem hexChar_ne_dot : ∀ n < 16, hexChar n ≠ '.' := by decide

theorem hexChar_ne_space : ∀ n < 16, hexChar n ≠ ' ' := by decide

theorem dot_notin_hexEncode (s : List Nat) (h : ∀ x ∈ s, x < 256) :
    '.' ∉ hexEncode s := by
  intro hmem
  rcases mem_hexEncode s h '.' hmem with ⟨n, hn, h2⟩
  exact hexChar_ne_dot n hn h2.symm

theorem space_notin_hexEncode (s : List Nat) (h : ∀ x ∈ s, x < 256) :
    ' ' ∉ hexEncode s := by
  intro hmem
  rcases mem_hexEncode s h ' ' hmem with ⟨n, hn, h2⟩
  exact hexChar_ne_space n hn h2.symm

theorem mem_wordsToBytes_lt (ws : List Nat) : ∀ x ∈ wordsToBytes ws, x < 256 := by
  intro x hx
  simp only [wordsToBytes, List.mem_flatten, List.mem_map] at hx
  rcases hx with ⟨l, ⟨w, _, rfl⟩, hl⟩
  simp only [List.mem_cons, List.not_mem_nil, or_false] at hl
  rcases hl with rfl | rfl | rfl | rfl <;> omega

theorem mem_sha256_lt (msg : List Nat) : ∀ x ∈ sha256 msg, x < 256 :=
  mem_wordsToBytes_lt _

theorem mem_hmacSha256_lt (key msg : List Nat) : ∀ x ∈ hmacSha256 key msg, x < 256 :=
  mem_sha256_lt _


theorem mem_natDigits128_lt (n : Nat) : ∀ x ∈ natDigits128 n, x < 128 := by
  induction n using natDigits128.induct with
  | case1 =>
    intro x hx
    rw [natDigits128, dif_pos rfl] at hx
    simp at hx
  | case2 n hn ih =>
    intro x hx
    rw [natDigits128, dif_neg hn] at hx
    rcases List.mem_cons.mp hx with rfl | hmem
    · omega
    · exact ih x hmem

theorem decNat_cons (b : Nat) (tail : List Nat) :
    decNat (b :: tail) =
      if b = 255 then some (0, tail)
      else if b < 128 then
        match decNat tail with
        | some (v, r) => some (b + 128 * v, r)
        | none => none
      else none :=
  rfl

theorem decNat_encNat (n : Nat) (rest : List Nat) :
    decNat (encNat n ++ rest) = some (n, rest) := by
  induction n using natDigits128.induct with
  | case1 =>
    have hstep : encNat 0 ++ rest = 255 :: rest := by
      rw [encNat, natDigits128, dif_pos rfl]
      rfl
    rw [hstep, decNat_cons, if_pos rfl]
  | case2 n hn ih =>
    have hd : n % 128 < 128 := by omega
    have hstep : encNat n ++ rest = n % 128 :: (encNat (n / 128) ++ rest) := by
      rw [encNat, encNat, natDigits128, dif_neg hn]
      simp
    rw [hstep, decNat_cons, if_neg (by omega), if_pos hd, ih]
    show some (n % 128 + 128 * (n / 128), rest) = some (n, rest)
    have hv : n % 128 + 128 * (n / 128) = n := by omega
    rw [hv]

theorem decInt_cons (s : Nat) (tail : List Nat) :
    decInt (s :: tail) =
      match decNat tail with
      | some (v, r) =>
        if s = 1 then some (-(v : Int), r) else if s = 0 then some ((v : Int), r) else none
      | none => none :=
  rfl

theorem decInt_encInt (i : Int) (rest : List Nat) :
    decInt (encInt i ++ rest) = some (i, rest) := by
  by_cases hi : i < 0
  · have hstep : encInt i ++ rest = 1 :: (encNat i.natAbs ++ rest) := by
      simp [encInt, hi]
    rw [hstep, decInt_cons, decNat_encNat]
    show (if (1 : Nat) = 1 then some (-(i.natAbs : Int), rest)
          else if (1 : Nat) = 0 then some ((i.natAbs : Int), rest) else none) = some (i, rest)
    have hv : -(i.natAbs : Int) = i := by omega
    rw [if_pos rfl, hv]
  · have hstep : encInt i ++ rest = 0 :: (encNat i.natAbs ++ rest) := by
      simp [encInt, hi]
    rw [hstep, decInt_cons, decNat_encNat]
    show (if (0 : Nat) = 1 then some (-(i.natAbs : Int), rest)
          else if (0 : Nat) = 0 then some ((i.natAbs : Int), rest) else none) = some (i, rest)
    have hv : ((i.natAbs : Int)) = i := by omega
    rw [if_neg (by omega), if_pos rfl, hv]

theorem char_toNat_lt (c : Char) : c.toNat < 1114112 := by
  have h := c.valid
  rcases h with h | h
  · have : c.toNat < 55296 := h
    omega
  · exact h.2

theorem decChars_blocks (s : GoStr) (rest : List Nat) :
    decChars s.length ((s.map encChar).flatten ++ rest) = some (s, rest) := by
  induction s with
  | nil => rfl
  | cons c cs ih =>
    have hc := char_toNat_lt c
    have hstep : ((c :: cs).map encChar).flatten ++ rest =
        c.toNat / 65536 :: c.toNat / 256 % 256 :: c.toNat % 256 ::
          ((cs.map encChar).flatten ++ rest) := by
      simp [encChar]
    rw [List.length_cons, hstep, decChars, ih]
    have hv : c.toNat / 65536 * 65536 + c.toNat / 256 % 256 * 256 + c.toNat % 256 = c.toNat := by
      omega
    rw [hv, Char.ofNat_toNat]

theorem decStr_encStrBytes (s : GoStr) (rest : List Nat) :
    decStr (encStrBytes s ++ rest) = some (s, rest) := by
  have hstep : encStrBytes s ++ rest = encNat s.length ++ ((s.map encChar).flatten ++ rest) := by
    simp [encStrBytes]
  rw [decStr, hstep, decNat_encNat]
  show decChars s.length ((s.map encChar).flatten ++ rest) = some (s, rest)
  exact decChars_blocks s rest

theorem decInt_encInt_nil (i : Int) : decInt (encInt i) = some (i, []) := by
  have h := decInt_encInt i []
  simpa using h

theorem jsonUnmarshal_jsonMarshal (td : TokenData) :
    jsonUnmarshal (jsonMarshal td) = some td := by
  have h1 : jsonMarshal td =
      encStrBytes td.runID ++ (encInt td.expiresAt ++ encInt td.createdAt) := by
    simp [jsonMarshal]
  rw [jsonUnmarshal, h1]
  simp [decStr_encStrBytes, decInt_encInt, decInt_encInt_nil]

theorem mem_encNat_lt (n : Nat) : ∀ x ∈ encNat n, x < 256 := by
  intro x hx
  rcases List.mem_append.mp hx with hx | hx
  · have := mem_natDigits128_lt _ _ hx
    omega
  · simp only [List.mem_cons, List.not_mem_nil, or_false] at hx
    omega

theorem mem_encStrBytes_lt (s : GoStr) : ∀ x ∈ encStrBytes s, x < 256 := by
  intro x hx
  rcases List.mem_append.mp hx with hx | hx
  · exact mem_encNat_lt _ x hx
  · rcases List.mem_flatten.mp hx with ⟨l, hl, hxl⟩
    rcases List.mem_map.mp hl with ⟨c, _, rfl⟩
    have := char_toNat_lt c
    rcases List.mem_cons.mp hxl with rfl | hxl
    · omega
    rcases List.mem_cons.mp hxl with rfl | hxl
    · omega
    rcases List.mem_cons.mp hxl with rfl | hxl
    · omega
    · simp at hxl

theorem mem_encInt_lt (i : Int) : ∀ x ∈ encInt i, x < 256 := by
  intro x hx
  rcases List.mem_cons.mp hx with rfl | hx
  · split <;> omega
  · exact mem_encNat_lt _ x hx

theorem mem_jsonMarshal_lt (td : TokenData) : ∀ x ∈ jsonMarshal td, x < 256 := by
  intro x hx
  rcases List.mem_append.mp hx with hx | hx
  · rcases List.mem_append.mp hx with hx | hx
    · exact mem_encStrBytes_lt _ x hx
    · exact mem_encInt_lt _ x hx
  · exact mem_encInt_lt _ x hx

theorem validate_after_generate (key : List Nat) (runID : GoStr) (now t : Int)
    (h : t ≤ now + 7200000000000) :
    ValidateToken key ((GenerateToken key runID now).1) runID t = Except.ok true := by
  rw [GenerateToken]
  have hplt := mem_jsonMarshal_lt ⟨runID, now + 7200000000000, now⟩
  have hslt := mem_hmacSha256_lt key (jsonMarshal ⟨runID, now + 7200000000000, now⟩)
  have hexp : ¬ (t > now + 7200000000000) := by omega
  rw [ValidateToken]
  rw [goSplit_append_sep '.' _ _ (dot_notin_b64Encode _ hplt) (dot_notin_hexEncode _ hslt)]
  simp [b64Decode_b64Encode _ hplt, hexDecode_hexEncode _ hslt, jsonUnmarshal_jsonMarshal, hexp]

theorem space_notin_generated_token (key : List Nat) (runID : GoStr) (now : Int) :
    ' ' ∉ (GenerateToken key runID now).1 := by
  rw [GenerateToken]
  have hplt := mem_jsonMarshal_lt ⟨runID, now + 7200000000000, now⟩
  have hslt := mem_hmacSha256_lt key (jsonMarshal ⟨runID, now + 7200000000000, now⟩)
  intro hmem
  rcases List.mem_append.mp hmem with hmem | hmem
  · exact space_notin_b64Encode _ hplt hmem
  · rcases List.mem_cons.mp hmem with h1 | hmem
    · exact absurd h1 (by decide)
    · exact space_notin_hexEncode _ hslt hmem

/-! ## Claim theorems -/

/-- Claim C1: for every run id, validating the token returned by
`GenerateToken` against the same run id, at any time up to the 2-hour expiry
embedded at issuance (in particular immediately after issuance), returns
valid with no error. -/
theorem token_round_trip (key : List Nat) (runID : GoStr) (now t : Int)
    (h : t ≤ now + 7200000000000) :
    ValidateToken key ((GenerateToken key runID now).1) runID t = Except.ok true :=
  validate_after_generate key runID now t h

/-- Witness for C1 at a concrete run id, key and clock. -/
theorem token_round_trip_witness :
    (0 : Int) ≤ 0 + 7200000000000 ∧
    ValidateToken [] ((GenerateToken [] ['r'] 0).1) ['r'] 0 = Except.ok true :=
  ⟨by decide, token_round_trip [] ['r'] 0 0 (by decide)⟩

/-- Claim C2: `ValidateToken` returns an error exactly when the token is
structurally malformed (not two `.`-separated halves decoding to a payload
and signature, the payload decoding to token data), or the recomputed MAC
differs from the attached signature, or the embedded expiry is in the past,
or the embedded run id differs from the argument; otherwise it returns
valid. -/
theorem validateToken_error_iff (key : List Nat) (token runID : GoStr) (now : Int) :
    ((∃ e, ValidateToken key token runID now = Except.error e) ↔
      specRejects key token runID now = true) ∧
    (ValidateToken key token runID now = Except.ok true ↔
      specRejects key token runID now = false) := by
  rcases hsplit : goSplit '.' token with _ | ⟨p, _ | ⟨s, _ | ⟨x, xs⟩⟩⟩
  · simp [ValidateToken, specRejects, structurallyMalformed, macDiffers, payloadExpired,
      runIdDiffers, tokenDataOf, hsplit]
  · simp [ValidateToken, specRejects, structurallyMalformed, macDiffers, payloadExpired,
      runIdDiffers, tokenDataOf, hsplit]
  · rcases hp : b64Decode p with _ | payload
    · simp [ValidateToken, specRejects, structurallyMalformed, macDiffers, payloadExpired,
        runIdDiffers, tokenDataOf, hsplit, hp]
    · rcases hs : hexDecode s with _ | sig
      · simp [ValidateToken, specRejects, structurallyMalformed, macDiffers, payloadExpired,
          runIdDiffers, tokenDataOf, hsplit, hp, hs]
      · by_cases hmac : sig = hmacSha256 key payload
        · rcases hj : jsonUnmarshal payload with _ | td
          · simp [ValidateToken, specRejects, structurallyMalformed, macDiffers, payloadExpired,
              runIdDiffers, tokenDataOf, hsplit, hp, hs, hmac, hj]
          · by_cases hexp : now > td.expiresAt
            · simp [ValidateToken, specRejects, structurallyMalformed, macDiffers, payloadExpired,
                runIdDiffers, tokenDataOf, hsplit, hp, hs, hmac, hj, hexp]
            · by_cases hrid : td.runID = runID
              · simp [ValidateToken, specRejects, structurallyMalformed, macDiffers,
                  payloadExpired, runIdDiffers, tokenDataOf, hsplit, hp, hs, hmac, hj, hexp, hrid]
              · simp [ValidateToken, specRejects, structurallyMalformed, macDiffers,
                  payloadExpired, runIdDiffers, tokenDataOf, hsplit, hp, hs, hmac, hj, hexp, hrid]
        · simp [ValidateToken, specRejects, structurallyMalformed, macDiffers, payloadExpired,
            runIdDiffers, tokenDataOf, hsplit, hp, hs, hmac]
  · simp [ValidateToken, specRejects, structurallyMalformed, macDiffers, payloadExpired,
      runIdDiffers, tokenDataOf, hsplit]

theorem mem_findStaleRuns_iff (st : Store) (timeout now : Int) (rid : GoStr) :
    rid ∈ FindStaleRuns st timeout now ↔
      ∃ kd ∈ st, kd.1 = rid ∧ kd.2.finished = false ∧ now - kd.2.updatedAt > timeout := by
  constructor
  · intro hmem
    rcases List.mem_map.mp hmem with ⟨kd, hkd, rfl⟩
    rcases List.mem_filter.mp hkd with ⟨hin, hcond⟩
    have hcond2 : kd.2.finished = false ∧ now - kd.2.updatedAt > timeout := by
      simpa using hcond
    exact ⟨kd, hin, rfl, hcond2.1, hcond2.2⟩
  · rintro ⟨kd, hin, heq, hfin, hstale⟩
    apply List.mem_map.mpr
    refine ⟨kd, ?_, heq⟩
    apply List.mem_filter.mpr
    refine ⟨hin, ?_⟩
    simp [hfin, hstale]

theorem exists_assoc_lookup (st : Store) (rid : GoStr) (P : RunDoc → Prop)
    (h : (st.map fun kd => kd.1).Nodup) :
    (∃ kd ∈ st, kd.1 = rid ∧ P kd.2) ↔ ∃ doc, lookupRun st rid = some doc ∧ P doc := by
  induction st with
  | nil =>
    constructor
    · rintro ⟨kd, hmem, _⟩
      simp at hmem
    · rintro ⟨doc, hdoc, _⟩
      simp [lookupRun] at hdoc
  | cons kd0 rest ih =>
    obtain ⟨k, d⟩ := kd0
    rw [List.map_cons, List.nodup_cons] at h
    obtain ⟨hk, hrest⟩ := h
    by_cases hkr : k = rid
    · subst hkr
      have hl : lookupRun ((k, d) :: rest) k = some d := by
        rw [lookupRun, if_pos rfl]
      rw [hl]
      constructor
      · rintro ⟨kd, hmem, heq, hP⟩
        rcases List.mem_cons.mp hmem with rfl | hmem
        · exact ⟨d, rfl, hP⟩
        · exact absurd (List.mem_map.mpr ⟨kd, hmem, heq⟩) hk
      · rintro ⟨doc, hdoc, hP⟩
        rw [Option.some.injEq] at hdoc
        exact ⟨(k, d), List.mem_cons_self _ _, rfl, hdoc ▸ hP⟩
    · have hl : lookupRun ((k, d) :: rest) rid = lookupRun rest rid := by
        rw [lookupRun, if_neg hkr]
      rw [hl, ← ih hrest]
      constructor
      · rintro ⟨kd, hmem, heq, hP⟩
        rcases List.mem_cons.mp hmem with rfl | hmem
        · exact absurd heq hkr
        · exact ⟨kd, hmem, heq, hP⟩
      · rintro ⟨kd, hmem, heq, hP⟩
        exact ⟨kd, List.mem_cons_of_mem _ hmem, heq, hP⟩

/-- Claim C9: `FindStaleRuns(timeout)` returns exactly the ids of runs that
are not finished and whose `(now - updatedAt)` strictly exceeds `timeout`. -/
theorem findStaleRuns_characterization (st : Store) (timeout now : Int) (rid : GoStr)
    (h : (st.map fun kd => kd.1).Nodup) :
    rid ∈ FindStaleRuns st timeout now ↔
      ∃ doc, lookupRun st rid = some doc ∧ doc.finished = false ∧
        now - doc.updatedAt > timeout := by
  rw [mem_findStaleRuns_iff]
  exact exists_assoc_lookup st rid (fun d => d.finished = false ∧ now - d.updatedAt > timeout) h

/-- Witness for C9: with a 5-minute timeout, a 6-minute-stale unfinished run
is returned, a 4-minute-old one is not, and an old finished run is not.
Times are nanoseconds; `now = 600e9` (10 minutes). -/
theorem findStaleRuns_characterization_witness :
    ([(['a'], { RunDoc.zero with updatedAt := 360000000000 }),
      (['b'], { RunDoc.zero with updatedAt := 600000000000 - 360000000000 }),
      (['c'], { RunDoc.zero with updatedAt := 0, finished := true })].map
        fun kd => kd.1).Nodup ∧
    (['b'] ∈ FindStaleRuns
        [(['a'], { RunDoc.zero with updatedAt := 360000000000 }),
         (['b'], { RunDoc.zero with updatedAt := 600000000000 - 360000000000 }),
         (['c'], { RunDoc.zero with updatedAt := 0, finished := true })] 300000000000 600000000000 ↔
      ∃ doc, lookupRun
          [(['a'], { RunDoc.zero with updatedAt := 360000000000 }),
           (['b'], { RunDoc.zero with updatedAt := 600000000000 - 360000000000 }),
           (['c'], { RunDoc.zero with updatedAt := 0, finished := true })] ['b'] = some doc ∧
        doc.finished = false ∧ (600000000000 : Int) - doc.updatedAt > 300000000000) ∧
    FindStaleRuns
        [(['a'], { RunDoc.zero with updatedAt := 360000000000 }),
         (['b'], { RunDoc.zero with updatedAt := 600000000000 - 360000000000 }),
         (['c'], { RunDoc.zero with updatedAt := 0, finished := true })] 300000000000 600000000000 =
      [['b']] :=
  ⟨by decide,
   findStaleRuns_characterization _ 300000000000 600000000000 ['b'] (by decide),
   by decide⟩

/-- Claim C8: `MarkRunAsFinished` on an existing run returns success without
mutation when the run is already finished, otherwise sets `finished`,
`finishedAt`, `updatedAt` and the derived millis field; a second call
succeeds, changes nothing, and the run stays finished. -/
theorem markRunAsFinished_idempotent (st : Store) (rid : GoStr) (doc : RunDoc) (n1 n2 : Int)
    (h : lookupRun st rid = some doc) :
    (doc.finished = true → MarkRunAsFinished st rid n1 = Except.ok st) ∧
    (doc.finished = false →
      MarkRunAsFinished st rid n1 = Except.ok (setRun st rid
        { doc with finished := true, finishedAt := n1, updatedAt := n1,
                   updatedAtTimestamp := toMillis n1 })) ∧
    (∀ st2, MarkRunAsFinished st rid n1 = Except.ok st2 →
      MarkRunAsFinished st2 rid n2 = Except.ok st2 ∧
      ∃ d2, lookupRun st2 rid = some d2 ∧ d2.finished = true) := by
  refine ⟨?_, ?_, ?_⟩
  · intro hfin
    simp [MarkRunAsFinished, h, hfin]
  · intro hfin
    simp [MarkRunAsFinished, h, hfin]
  · intro st2 hcall
    by_cases hfin : doc.finished
    · rw [show MarkRunAsFinished st rid n1 = Except.ok st by simp [MarkRunAsFinished, h, hfin]]
        at hcall
      rw [Except.ok.injEq] at hcall
      subst hcall
      refine ⟨by simp [MarkRunAsFinished, h, hfin], doc, h, hfin⟩
    · rw [show MarkRunAsFinished st rid n1 = Except.ok (setRun st rid
          { doc with finished := true, finishedAt := n1, updatedAt := n1,
                     updatedAtTimestamp := toMillis n1 }) by simp [MarkRunAsFinished, h, hfin]]
        at hcall
      rw [Except.ok.injEq] at hcall
      subst hcall
      have hlook2 := lookupRun_setRun_self st rid
        { doc with finished := true, finishedAt := n1, updatedAt := n1,
                   updatedAtTimestamp := toMillis n1 }
      exact ⟨by simp [MarkRunAsFinished, hlook2], _, hlook2, rfl⟩

/-- Witness for C8 on a one-document store holding an unfinished run. -/
theorem markRunAsFinished_idempotent_witness :
    lookupRun [(['r'], RunDoc.zero)] ['r'] = some RunDoc.zero ∧
    ((RunDoc.zero.finished = true → MarkRunAsFinished [(['r'], RunDoc.zero)] ['r'] 5 =
        Except.ok [(['r'], RunDoc.zero)]) ∧
     (RunDoc.zero.finished = false →
       MarkRunAsFinished [(['r'], RunDoc.zero)] ['r'] 5 = Except.ok (setRun [(['r'], RunDoc.zero)]
         ['r'] { RunDoc.zero with finished := true, finishedAt := 5, updatedAt := 5,
                                  updatedAtTimestamp := toMillis 5 })) ∧
     (∀ st2, MarkRunAsFinished [(['r'], RunDoc.zero)] ['r'] 5 = Except.ok st2 →
       MarkRunAsFinished st2 ['r'] 9 = Except.ok st2 ∧
       ∃ d2, lookupRun st2 ['r'] = some d2 ∧ d2.finished = true)) :=
  ⟨by decide, markRunAsFinished_idempotent [(['r'], RunDoc.zero)] ['r'] RunDoc.zero 5 9 (by decide)⟩

/-- Claim C3 (observed violation): `ParseData` never sets the sample's
`RunID` field, so the sample stored under run `run-1` carries the run
identifier `""`, not `run-1`. -/
theorem stored_sample_runID_empty :
    ((lookupRun
        (StoreSamples [] (("run-1").data)
          (parseData (("00:00:01 | 12345 | GradleDaemon | 100MB | 200MB | 300MB").data) 0) 0)
        (("run-1").data)).map
      fun d => d.samples.map fun s => s.runID) = some [[]] ∧
    (("run-1").data) ≠ ([] : GoStr) := by
  constructor
  · rfl
  · decide

/-- Claim C4 (observed violation): on an otherwise valid line, the GC column
`0.250s` is parsed to GC time 0 — only an `ms` suffix is stripped, so
`0.250s` takes the present-but-unparseable branch (and `GCTime` is an
integer) — while the line itself is accepted; a 6-column line also yields
GC time 0. -/
theorem gc_seconds_suffix_parses_to_zero :
    (parseData (("00:01:30 | 123 | GradleDaemon | 100MB | 200MB | 300MB | 0.250s").data) 0).map
        (fun s => s.gcTime) = [0] ∧
    (parseData (("00:01:30 | 123 | GradleDaemon | 100MB | 200MB | 300MB").data) 0).map
        (fun s => s.gcTime) = [0] ∧
    (parseData (("00:01:30 | 123 | GradleDaemon | 100MB | 200MB | 300MB | 250ms").data) 0).map
        (fun s => s.gcTime) = [250] := by
  refine ⟨rfl, rfl, rfl⟩

/-- Claim C5 counterexample: a line whose heap-used field is `N/A` is not
treated as value-unavailable — the whole line is dropped by the parser. -/
theorem na_heap_field_line_dropped :
    parseLine 0 (("00:00:05 | 123 | GradleDaemon | N/A | 200MB | 300MB").data) = none ∧
    parseData (("00:00:05 | 123 | GradleDaemon | N/A | 200MB | 300MB").data) 0 = [] := by
  refine ⟨rfl, rfl⟩

/-- Claim C5 (amended): `N/A` is treated as value-unavailable only in the
GC-time field (the line is kept with GC time 0); a line carrying `N/A` in
heap-used, heap-capacity or RSS is skipped, and in every case `ParseData`
returns no error. -/
theorem na_placeholder_gc_field_only :
    (∀ t : Int,
      parseLine t (("00:00:05 | 123 | GradleDaemon | 100MB | 200MB | 300MB | N/A").data) =
        some { timestamp := toMillis (t + 5000000000), elapsedTime := 5, pid := (("123").data),
               name := (("GradleDaemon").data), heapUsed := 100, heapCap := 200, rss := 300,
               gcTime := 0, runID := [] }) ∧
    (∀ t : Int,
      parseLine t (("00:00:05 | 123 | GradleDaemon | N/A | 200MB | 300MB").data) = none ∧
      parseLine t (("00:00:05 | 123 | GradleDaemon | 100MB | N/A | 300MB").data) = none ∧
      parseLine t (("00:00:05 | 123 | GradleDaemon | 100MB | 200MB | N/A").data) = none) ∧
    (∀ (data : List Char) (t : Int), ParseData data t = Except.ok (parseData data t)) :=
  ⟨fun _ => rfl, fun _ => ⟨rfl, rfl, rfl⟩, fun _ _ => rfl⟩

/-- Claim C7: a line whose pipe-separated field count is neither 6 nor 7 is
skipped; `ParseData` never returns an error; a concrete batch of 3 lines
with 1 malformed (4-column) line yields exactly 2 samples. -/
theorem malformed_lines_skipped :
    (∀ (t : Int) (rawLine : List Char),
      (goSplit '|' (trimSpace rawLine)).length ≠ 6 →
      (goSplit '|' (trimSpace rawLine)).length ≠ 7 →
      parseLine t rawLine = none) ∧
    (∀ (data : List Char) (t : Int), ParseData data t = Except.ok (parseData data t)) ∧
    (parseData
        (("00:00:01 | 1 | GradleDaemon | 10MB | 20MB | 30MB\na | b | c | d\n00:00:02 | 1 | GradleDaemon | 11MB | 21MB | 31MB").data)
        0).length = 2 := by
  refine ⟨?_, fun _ _ => rfl, rfl⟩
  intro t rawLine h6 h7
  rw [parseLine]
  by_cases he : (trimSpace rawLine).isEmpty
  · simp [he]
  · simp only [he, if_false, Bool.false_eq_true]
    rw [if_pos ⟨h6, h7⟩]

/-- Witness for C7's universally quantified part at a 4-column line. -/
theorem malformed_lines_skipped_witness :
    (goSplit '|' (trimSpace (("a | b | c | d").data))).length ≠ 6 ∧
    (goSplit '|' (trimSpace (("a | b | c | d").data))).length ≠ 7 ∧
    parseLine 0 (("a | b | c | d").data) = none :=
  ⟨by decide, by decide,
   malformed_lines_skipped.1 0 (("a | b | c | d").data) (by decide) (by decide)⟩

/-- Claim C6: the 6-column line with elapsed 00:01:30 parses, against run
start time `T`, to exactly one sample with elapsed 90 s, pid `123`, name
`GradleDaemon`, heap 100/200, RSS 300 and timestamp `T + 90 s` (in epoch
millis); and the ingest handler computes that timestamp from the stored
run's `startTime`, not from the request's arrival time `now`. -/
theorem sample_line_parse_postcondition :
    (∀ T : Int,
      parseData (("00:01:30 | 123 | GradleDaemon | 100MB | 200MB | 300MB").data) T =
        [{ timestamp := toMillis (T + 90000000000), elapsedTime := 90, pid := (("123").data),
           name := (("GradleDaemon").data), heapUsed := 100, heapCap := 200, rss := 300,
           gcTime := 0, runID := [] }]) ∧
    (∀ (key : List Nat) (st : Store) (doc : RunDoc) (tok : GoStr) (now : Int),
      lookupRun st ['r','u','n','1'] = some doc →
      ValidateToken key tok ['r','u','n','1'] now = Except.ok true →
      ' ' ∉ tok →
      Ingest key
          { method := Method.post, authHeader := bearerWord ++ ' ' :: tok,
            body := some { runID := ['r','u','n','1'],
                           data := (("00:01:30 | 123 | GradleDaemon | 100MB | 200MB | 300MB").data) } }
          now st =
        (200,
         setRun st ['r','u','n','1']
           { doc with
               samples := doc.samples ++
                 [{ timestamp := toMillis (doc.startTime + 90000000000), elapsedTime := 90,
                    pid := (("123").data), name := (("GradleDaemon").data), heapUsed := 100,
                    heapCap := 200, rss := 300, gcTime := 0, runID := [] }],
               updatedAt := now, updatedAtTimestamp := toMillis now },
         [StorageOp.opGetRun ['r','u','n','1'], StorageOp.opStoreSamples ['r','u','n','1'] 1])) := by
  have hparse : ∀ T : Int,
      parseData (("00:01:30 | 123 | GradleDaemon | 100MB | 200MB | 300MB").data) T =
        [{ timestamp := toMillis (T + 90000000000), elapsedTime := 90, pid := (("123").data),
           name := (("GradleDaemon").data), heapUsed := 100, heapCap := 200, rss := 300,
           gcTime := 0, runID := [] }] := fun T => rfl
  refine ⟨hparse, ?_⟩
  intro key st doc tok now hlook hval hsp
  have hsplit := goSplit_append_sep ' ' bearerWord tok (by decide) hsp
  have hne : ¬(bearerWord ++ ' ' :: tok = []) := by simp [bearerWord]
  have hdne : ¬((("00:01:30 | 123 | GradleDaemon | 100MB | 200MB | 300MB").data) =
      ([] : List Char)) := by decide
  simp [Ingest, hne, hsplit, hval, GetRun, hlook, ParseData, StoreSamples, hparse, hdne]

/-- Witness for C6's handler part: a singleton store holding `run1` with
start time 77 s, the token issued by `GenerateToken` for `run1`, arrival
time 5000 s. -/
theorem sample_line_parse_postcondition_witness :
    lookupRun [(['r','u','n','1'], { RunDoc.zero with startTime := 77000000000 })]
        ['r','u','n','1'] = some { RunDoc.zero with startTime := 77000000000 } ∧
    ValidateToken [] ((GenerateToken [] ['r','u','n','1'] 0).1) ['r','u','n','1'] 0 =
      Except.ok true ∧
    ' ' ∉ (GenerateToken [] ['r','u','n','1'] 0).1 ∧
    Ingest []
        { method := Method.post,
          authHeader := bearerWord ++ ' ' :: (GenerateToken [] ['r','u','n','1'] 0).1,
          body := some { runID := ['r','u','n','1'],
                         data := (("00:01:30 | 123 | GradleDaemon | 100MB | 200MB | 300MB").data) } }
        0 [(['r','u','n','1'], { RunDoc.zero with startTime := 77000000000 })] =
      (200,
       setRun [(['r','u','n','1'], { RunDoc.zero with startTime := 77000000000 })] ['r','u','n','1']
         { { RunDoc.zero with startTime := 77000000000 } with
             samples := ({ RunDoc.zero with startTime := 77000000000 } : RunDoc).samples ++
               [{ timestamp := toMillis (({ RunDoc.zero with startTime := 77000000000 } : RunDoc).startTime + 90000000000),
                  elapsedTime := 90, pid := (("123").data), name := (("GradleDaemon").data),
                  heapUsed := 100, heapCap := 200, rss := 300, gcTime := 0, runID := [] }],
             updatedAt := 0, updatedAtTimestamp := toMillis 0 },
       [StorageOp.opGetRun ['r','u','n','1'], StorageOp.opStoreSamples ['r','u','n','1'] 1]) :=
  ⟨rfl, validate_after_generate [] ['r','u','n','1'] 0 0 (by decide),
   space_notin_generated_token [] ['r','u','n','1'] 0,
   sample_line_parse_postcondition.2 [] _ _ _ 0 rfl
     (validate_after_generate [] ['r','u','n','1'] 0 0 (by decide))
     (space_notin_generated_token [] ['r','u','n','1'] 0)⟩

/-- Claim C10: an ingest request that reaches the handler with method POST
and a decodable body but failing bearer authentication — missing header,
header not of the form `Bearer <token>`, or a token `ValidateToken`
rejects — is answered 401 with the store untouched and no storage
operation performed. -/
theorem ingest_auth_checked_before_storage (key : List Nat) (r : IngestHttpReq) (now : Int)
    (st : Store) (req : IngestRequest)
    (hm : r.method = Method.post) (hb : r.body = some req)
    (hauth : r.authHeader = [] ∨
      (goSplit ' ' r.authHeader).length ≠ 2 ∨
      (goSplit ' ' r.authHeader).getD 0 [] ≠ bearerWord ∨
      (∃ e, ValidateToken key ((goSplit ' ' r.authHeader).getD 1 []) req.runID now =
        Except.error e)) :
    Ingest key r now st = (401, st, []) := by
  rcases hauth with h1 | h2 | h3 | ⟨e, h4⟩
  · simp [Ingest, hm, hb, h1]
  · by_cases h1 : r.authHeader = []
    · simp [Ingest, hm, hb, h1]
    · simp [Ingest, hm, hb, h1, h2]
  · by_cases h1 : r.authHeader = []
    · simp [Ingest, hm, hb, h1]
    · have h3' := h3
      rw [List.getD_eq_getElem?_getD] at h3'
      simp [Ingest, hm, hb, h1, h3']
  · by_cases h1 : r.authHeader = []
    · simp [Ingest, hm, hb, h1]
    · by_cases h2 : (goSplit ' ' r.authHeader).length ≠ 2
      · simp [Ingest, hm, hb, h1, h2]
      · by_cases h3 : (goSplit ' ' r.authHeader).getD 0 [] ≠ bearerWord
        · have h3' := h3
          rw [List.getD_eq_getElem?_getD] at h3'
          simp [Ingest, hm, hb, h1, h3']
        · have h2' : (goSplit ' ' r.authHeader).length = 2 := not_not.mp h2
          have h3x := not_not.mp h3
          rcases hl : goSplit ' ' r.authHeader with _ | ⟨a, _ | ⟨b, _ | ⟨c, tl⟩⟩⟩
          · rw [hl] at h2'
            simp at h2'
          · rw [hl] at h2'
            simp at h2'
          · rw [hl] at h3x h4
            have ha : a = bearerWord := h3x
            have hb4 : ValidateToken key b req.runID now = Except.error e := h4
            simp [Ingest, hm, hb, h1, hl, ha, hb4]
          · rw [hl] at h2'
            simp at h2'

/-- Witness for C10: a POST with a well-formed body and no Authorization
header against a one-run store. -/
theorem ingest_auth_checked_before_storage_witness :
    ({ method := Method.post, authHeader := [],
       body := some { runID := ['r'], data := ['d'] } } : IngestHttpReq).method = Method.post ∧
    ({ method := Method.post, authHeader := [],
       body := some { runID := ['r'], data := ['d'] } } : IngestHttpReq).body =
      some { runID := ['r'], data := ['d'] } ∧
    Ingest [] { method := Method.post, authHeader := [],
                body := some { runID := ['r'], data := ['d'] } } 0
        [(['r'], RunDoc.zero)] =
      (401, [(['r'], RunDoc.zero)], []) :=
  ⟨rfl, rfl,
   ingest_auth_checked_before_storage [] _ 0 [(['r'], RunDoc.zero)] _ rfl rfl (Or.inl rfl)⟩
